import Mathlib

/-!
Verification of the RankEval "Dataset Utilities" grouped-dataset model.

The notebook of the repository demonstrates the `rankeval.dataset.Dataset`
class: loading/dumping SVMLight-style data, feature subsetting, query
subsetting, train/validation/test splitting, per-query iteration, and
derived index utilities.  The class implementation itself is not part of
the sources, so every operation below is modelled from the description of
the data model given by the specification (sections 3 to 8) and then
verified against the claims of the specification.

Design choices of the embedding:
* feature values and labels are rationals (the spec only requires a numeric
  type; floating point is out of scope),
* the text codec is modelled at token level: a serialized line is a record
  of label, query id and sparse index/value pairs (spec section 6 describes
  exactly these tokens),
* the randomness of `split` is an explicit permutation parameter, as the
  spec itself recommends (sections 5 and 9),
* fallible operations return `Except DatasetError`.
-/

namespace Rankeval

/-- Modelled from the spec: error taxonomy of section 7 (the file-system
variant `IOError` is not representable in the embedding). -/
inductive DatasetError where
  | parseError
  | indexError
  | unknownQueryError
  | invalidRatioError
deriving DecidableEq

/-- Modelled from the spec: the Grouped Dataset of section 3, owning the
dense feature matrix (row major, one row per instance), the label vector,
the per-query external identifiers and the offset index.  The scalars
`n_instances`, `n_queries`, `n_features` are derived. -/
structure Dataset where
  X : List (List ℚ)
  y : List ℚ
  query_ids : List Nat
  query_offsets : List Nat
deriving DecidableEq

namespace Dataset

/-- Modelled from the spec: `n_instances = features.rows`. -/
def n_instances (D : Dataset) : Nat := D.X.length

/-- Modelled from the spec: `n_queries = query_ids.length`. -/
def n_queries (D : Dataset) : Nat := D.query_ids.length

/-- Modelled from the spec: the common width of all feature rows (zero for
an instance-free dataset). -/
def n_features (D : Dataset) : Nat := (D.X.headD []).length

/-- Start offset of query `q` (entry `q` of the offset index). -/
def off (D : Dataset) (q : Nat) : Nat := D.query_offsets.getD q 0

/-- Number of instances of query `q`: `query_offsets[q+1] - query_offsets[q]`. -/
def qsize (D : Dataset) (q : Nat) : Nat := D.off (q + 1) - D.off q

/-- Modelled from the spec: the invariants of section 3 that every
constructed or derived dataset must satisfy. -/
def WF (D : Dataset) : Prop :=
  D.y.length = D.X.length ∧
  D.query_offsets.length = D.n_queries + 1 ∧
  D.off 0 = 0 ∧
  D.off D.n_queries = D.n_instances ∧
  D.query_offsets.Pairwise (· < ·) ∧
  D.query_ids.Nodup ∧
  ∀ row ∈ D.X, row.length = D.n_features

instance (D : Dataset) : Decidable D.WF := by
  unfold WF; infer_instance

/-- Modelled from the spec: the offset invariant of section 8: the offset
index has a leading `0`, a trailing `n_instances`, length `n_queries + 1`,
is strictly increasing, and consequently gives every query at least one
instance. -/
def OffsetInvariant (S : Dataset) : Prop :=
  S.query_offsets.length = S.n_queries + 1 ∧
  S.off 0 = 0 ∧
  S.off S.n_queries = S.n_instances ∧
  S.query_offsets.Pairwise (· < ·) ∧
  ∀ q, q < S.n_queries → 0 < S.qsize q

/-- Modelled from the spec: `get_query_sizes` (section 4.5), element `q` is
`query_offsets[q+1] - query_offsets[q]`. -/
def get_query_sizes (D : Dataset) : List Nat :=
  (List.range D.n_queries).map (fun q => D.qsize q)

/-- Modelled from the spec: `get_qids_dataset` (section 4.5), the value
`query_ids[q]` repeated `get_query_sizes()[q]` times, in row order. -/
def get_qids_dataset (D : Dataset) : List Nat :=
  (List.range D.n_queries).flatMap
    (fun q => List.replicate (D.qsize q) (D.query_ids.getD q 0))

/-- Modelled from the spec: the query iterator (section 4.4), the finite
sequence of `(query_id, start_offset, end_offset)` triples in stored query
order, end exclusive. -/
def query_iterator (D : Dataset) : List (Nat × Nat × Nat) :=
  (List.range D.n_queries).map
    (fun q => (D.query_ids.getD q 0, D.off q, D.off (q + 1)))

/-- Offset index rebuilt from a list of query sizes: entry `c` is the sum
of the first `c` sizes. -/
def offsetsOf (sizes : List Nat) : List Nat :=
  (List.range (sizes.length + 1)).map (fun c => (sizes.take c).sum)

/-- Modelled from the spec: `subset_features` (section 4.2): column `j` of
the result is source column `selected_indices[j]`; rows, labels, query ids
and offsets are copied unchanged; fails with `IndexError` when an index is
out of `[0, n_features)`. -/
def subset_features (D : Dataset) (idx : List Nat) : Except DatasetError Dataset :=
  if idx.all (fun j => j < D.n_features) then
    .ok ⟨D.X.map (fun row => idx.map (fun j => row.getD j 0)),
         D.y, D.query_ids, D.query_offsets⟩
  else .error .indexError

/-- Positions (in stored query order) of the queries whose id belongs to
`keep`: the stable filter underlying `subset`. -/
def keptIdx (D : Dataset) (keep : List Nat) : List Nat :=
  (List.range D.n_queries).filter (fun q => decide (D.query_ids.getD q 0 ∈ keep))

/-- Row/label/id/offset assembly common to `subset` and the partitions of
`split`: keeps, in stored order, the full contiguous row slice of every
query whose id is in `keep`, and recomputes the offsets from the kept
sizes. -/
def subsetBuild (D : Dataset) (keep : List Nat) : Dataset :=
  ⟨(D.keptIdx keep).flatMap (fun q => (D.X.drop (D.off q)).take (D.qsize q)),
   (D.keptIdx keep).flatMap (fun q => (D.y.drop (D.off q)).take (D.qsize q)),
   (D.keptIdx keep).map (fun q => D.query_ids.getD q 0),
   offsetsOf ((D.keptIdx keep).map (fun q => D.qsize q))⟩

/-- Modelled from the spec: `subset` (section 4.2): keeps only the rows of
the requested queries, preserving the contiguous row range of each kept query
and the relative order of kept queries; offsets are recomputed from
scratch; fails with `UnknownQueryError` when a requested id is absent. -/
def subset (D : Dataset) (keep : List Nat) : Except DatasetError Dataset :=
  if keep.all (fun g => decide (g ∈ D.query_ids)) then
    .ok (D.subsetBuild keep)
  else .error .unknownQueryError

/-- Modelled from the spec: `split` (section 4.3): validates the fractions
eagerly, cuts the shuffled query-id list (the explicit permutation `perm`
stands for the seeded random shuffle, as section 9 recommends) into three
contiguous blocks sized by rounding, and builds each partition with the
row-selection logic of `subset`. -/
def split (D : Dataset) (train_fraction vali_fraction : ℚ) (perm : List Nat) :
    Except DatasetError (Dataset × Dataset × Dataset) :=
  if 0 ≤ train_fraction ∧ train_fraction ≤ 1 ∧ 0 ≤ vali_fraction ∧
      vali_fraction ≤ 1 ∧ train_fraction + vali_fraction ≤ 1 then
    let nTrain : Nat := (round (train_fraction * D.n_queries)).toNat
    let nVali : Nat := (round (vali_fraction * D.n_queries)).toNat
    (D.subset (perm.take nTrain)).bind (fun tr =>
      (D.subset ((perm.drop nTrain).take nVali)).bind (fun va =>
        (D.subset (perm.drop (nTrain + nVali))).map (fun te => (tr, va, te))))
  else .error .invalidRatioError

end Dataset

/-- Modelled from the spec: one serialized instance of the text format
(section 6), at token level: a label token, a `qid` token and the sparse
`index:value` pairs (1-based indices). -/
structure Line where
  label : ℚ
  qid : Nat
  pairs : List (Nat × ℚ)
deriving DecidableEq

/-- Sparse encoding of a dense row starting at 1-based index `k`: keeps an
`index:value` pair exactly for the non-zero entries, in ascending index
order. -/
def sparsePairsFrom : Nat → List ℚ → List (Nat × ℚ)
  | _, [] => []
  | k, v :: t =>
    if v = 0 then sparsePairsFrom (k + 1) t else (k, v) :: sparsePairsFrom (k + 1) t

/-- Sparse encoding of a dense row with 1-based feature indices. -/
def sparsePairs (row : List ℚ) : List (Nat × ℚ) := sparsePairsFrom 1 row

/-- Modelled from the spec: serialization (section 4.1): one line per
instance, in row order, carrying the label, the owning query id and the
sparse ascending non-zero pairs. -/
def Dataset.dump (D : Dataset) : List Line :=
  (List.range D.n_instances).map
    (fun i => ⟨D.y.getD i 0, D.get_qids_dataset.getD i 0, sparsePairs (D.X.getD i [])⟩)

/-- Largest feature index appearing in the input: the parsed feature count
(section 4.1). -/
def maxFeatureIndex (ls : List Line) : Nat :=
  (ls.flatMap (fun l => l.pairs.map Prod.fst)).foldr max 0

/-- Dense row of width `nf` rebuilt from sparse pairs, zero-filling the
absent 1-based indices. -/
def denseRow (nf : Nat) (ps : List (Nat × ℚ)) : List ℚ :=
  (List.range nf).map (fun j => (ps.lookup (j + 1)).getD 0)

/-- Consecutive grouping of lines by query id (fuel-driven so that the
recursion is structural; the fuel is always at least the list length). -/
def groupLinesAux : Nat → List Line → List (Nat × List Line)
  | 0, _ => []
  | _ + 1, [] => []
  | fuel + 1, l :: t =>
    (l.qid, l :: t.takeWhile (fun x => x.qid == l.qid)) ::
      groupLinesAux fuel (t.dropWhile (fun x => x.qid == l.qid))

/-- Groups consecutive lines sharing the same query id. -/
def groupLines (ls : List Line) : List (Nat × List Line) :=
  groupLinesAux ls.length ls

/-- Modelled from the spec: parsing (section 4.1): groups consecutive lines
by query id, rejects a query id that reappears after a different one
(`ParseError`), determines the feature count as the maximum index seen and
zero-fills every row to that width. -/
def load (ls : List Line) : Except DatasetError Dataset :=
  if ((groupLines ls).map Prod.fst).Nodup then
    .ok ⟨ls.map (fun l => denseRow (maxFeatureIndex ls) l.pairs),
         ls.map (fun l => l.label),
         (groupLines ls).map Prod.fst,
         Dataset.offsetsOf ((groupLines ls).map (fun g => g.2.length))⟩
  else .error .parseError

/-- Concrete dataset mirroring the example scenario of spec section 8: two
queries with three and two instances and two (everywhere non-zero)
features; `query_offsets = [0, 3, 5]`. -/
def sampleD : Dataset :=
  ⟨[[1, 2], [3, 4], [5, 6], [7, 8], [9, 1]], [2, 0, 1, 1, 0], [1, 2], [0, 3, 5]⟩

/-- Concrete shuffled query-id list used to exercise `split`. -/
def samplePerm : List Nat := [2, 1]

/-- Concrete serialized input used to exercise `load`. -/
def sampleLines : List Line :=
  [⟨2, 7, [(2, 5)]⟩, ⟨0, 7, [(1, 3)]⟩, ⟨1, 4, [(1, 1), (2, 2)]⟩]

/-- The dataset obtained by loading `sampleLines`. -/
def sampleLoaded : Dataset :=
  ⟨[[0, 5], [3, 0], [1, 2]], [2, 0, 1], [7, 4], [0, 2, 3]⟩

/-- The dataset obtained from `sampleD` by `subset_features [1, 0]`. -/
def sampleSubF : Dataset :=
  ⟨[[2, 1], [4, 3], [6, 5], [8, 7], [1, 9]], [2, 0, 1, 1, 0], [1, 2], [0, 3, 5]⟩

section Lemmas

open List

variable {α : Type _} {β : Type _}

lemma getD_map_range (l : List α) (d : α) :
    (List.range l.length).map (fun i => l.getD i d) = l := by
  induction l with
  | nil => rfl
  | cons a t ih =>
    show (List.range (t.length + 1)).map _ = _
    rw [List.range_succ_eq_map, List.map_cons, List.map_map]
    have h1 : ((fun i => (a :: t).getD i d) ∘ Nat.succ) = fun i => t.getD i d := by
      funext i; exact List.getD_cons_succ
    rw [h1, ih]
    simp

lemma getD_drop (l : List α) (a k : Nat) (d : α) :
    (l.drop a).getD k d = l.getD (a + k) d := by
  induction a generalizing l with
  | zero => simp
  | succ a ih =>
    cases l with
    | nil => simp
    | cons x t =>
      rw [List.drop_succ_cons, ih t]
      have : a + 1 + k = (a + k) + 1 := by omega
      rw [this, List.getD_cons_succ]

lemma getD_take (l : List α) {s k : Nat} (d : α) (h : k < s) :
    (l.take s).getD k d = l.getD k d := by
  by_cases hk : k < l.length
  · have h1 : k < (l.take s).length := by
      rw [List.length_take]; exact lt_min h hk
    rw [List.getD_eq_getElem _ _ h1, List.getD_eq_getElem _ _ hk]
    exact List.getElem_take l
  · have h1 : (l.take s).length ≤ k := by
      rw [List.length_take]
      exact le_trans (min_le_right _ _) (Nat.le_of_not_lt hk)
    rw [List.getD_eq_default _ _ h1, List.getD_eq_default _ _ (Nat.le_of_not_lt hk)]

lemma getD_replicate (a d : α) {n k : Nat} (h : k < n) :
    (List.replicate n a).getD k d = a := by
  rw [List.getD_eq_getElem _ _ (by simpa using h)]
  exact List.getElem_replicate a _

lemma foldr_max_le {l : List Nat} {b : Nat} (h : ∀ x ∈ l, x ≤ b) :
    l.foldr max 0 ≤ b := by
  induction l with
  | nil => exact Nat.zero_le b
  | cons a t ih =>
    simp only [List.foldr_cons]
    exact max_le (h a (by simp)) (ih fun x hx => h x (by simp [hx]))

lemma le_foldr_max {l : List Nat} {x : Nat} (h : x ∈ l) :
    x ≤ l.foldr max 0 := by
  induction l with
  | nil => cases h
  | cons a t ih =>
    simp only [List.foldr_cons]
    rcases List.mem_cons.1 h with h | h
    · exact h ▸ le_max_left _ _
    · exact le_trans (ih h) (le_max_right _ _)

lemma flatMap_getD (l : List β) (f : β → List α) (dfl : β) (d : α) :
    ∀ {c k : Nat}, c < l.length → k < (f (l.getD c dfl)).length →
      (l.flatMap f).getD (((l.take c).map (fun x => (f x).length)).sum + k) d =
        (f (l.getD c dfl)).getD k d := by
  induction l with
  | nil => intro c k hc; cases hc
  | cons b t ih =>
    intro c k hc hk
    cases c with
    | zero =>
      simp only [List.take_zero, List.map_nil, List.sum_nil, Nat.zero_add,
        List.flatMap_cons, List.getD_cons_zero] at *
      exact List.getD_append _ _ _ _ hk
    | succ c =>
      simp only [List.take_succ_cons, List.map_cons, List.sum_cons,
        List.flatMap_cons, List.getD_cons_succ] at *
      rw [Nat.add_assoc, List.getD_append_right _ _ _ _ (Nat.le_add_right _ _),
        Nat.add_sub_cancel_left]
      exact ih (Nat.lt_of_succ_lt_succ hc) hk

lemma sum_take_succ_getD (l : List Nat) {c : Nat} (hc : c < l.length) :
    (l.take (c + 1)).sum = (l.take c).sum + l.getD c 0 := by
  rw [List.sum_take_succ l c hc, List.getD_eq_getElem _ _ hc]

lemma sum_take_le_sum_take (l : List Nat) {c c' : Nat} (h : c ≤ c') :
    (l.take c).sum ≤ (l.take c').sum := by
  induction c' with
  | zero => simp_all
  | succ c' ih =>
    rcases Nat.le_succ_iff.1 h with h | h
    · refine le_trans (ih h) ?_
      by_cases hl : c' < l.length
      · rw [sum_take_succ_getD l hl]; exact Nat.le_add_right _ _
      · rw [List.take_of_length_le (Nat.le_of_not_lt hl),
          List.take_of_length_le (le_trans (Nat.le_of_not_lt hl) (Nat.le_succ _))]
    · exact h ▸ le_refl _

lemma sum_take_lt_sum_take (l : List Nat) (hpos : ∀ s ∈ l, 0 < s) {c c' : Nat}
    (h : c < c') (h' : c' ≤ l.length) : (l.take c).sum < (l.take c').sum := by
  have hc : c < l.length := lt_of_lt_of_le h h'
  have h1 : (l.take c).sum < (l.take (c + 1)).sum := by
    rw [sum_take_succ_getD l hc]
    have : 0 < l.getD c 0 := by
      rw [List.getD_eq_getElem _ _ hc]
      exact hpos _ (List.getElem_mem hc)
    omega
  exact lt_of_lt_of_le h1 (sum_take_le_sum_take l h)

lemma getD_map {f : α → β} {l : List α} {i : Nat} (d : β) (dfl : α)
    (h : i < l.length) : (l.map f).getD i d = f (l.getD i dfl) := by
  rw [List.getD_eq_getElem _ _ (by simpa using h), List.getElem_map,
    List.getD_eq_getElem _ _ h]

lemma getD_mem {l : List α} {i : Nat} (d : α) (h : i < l.length) :
    l.getD i d ∈ l := by
  rw [List.getD_eq_getElem _ _ h]
  exact List.getElem_mem h

section DatasetLemmas

open Dataset

variable {D : Dataset}

lemma WF_ylen (h : D.WF) : D.y.length = D.X.length := h.1

lemma WF_offlen (h : D.WF) : D.query_offsets.length = D.n_queries + 1 := h.2.1

lemma WF_off0 (h : D.WF) : D.off 0 = 0 := h.2.2.1

lemma WF_offlast (h : D.WF) : D.off D.n_queries = D.n_instances := h.2.2.2.1

lemma WF_pairwise (h : D.WF) : D.query_offsets.Pairwise (· < ·) := h.2.2.2.2.1

lemma WF_nodup (h : D.WF) : D.query_ids.Nodup := h.2.2.2.2.2.1

lemma WF_rowlen (h : D.WF) : ∀ row ∈ D.X, row.length = D.n_features :=
  h.2.2.2.2.2.2

lemma WF_off_lt (h : D.WF) {i j : Nat} (hij : i < j) (hj : j ≤ D.n_queries) :
    D.off i < D.off j := by
  have hjl : j < D.query_offsets.length := by rw [WF_offlen h]; omega
  have hil : i < D.query_offsets.length := by omega
  have h2 := List.pairwise_iff_get.1 (WF_pairwise h) ⟨i, hil⟩ ⟨j, hjl⟩ hij
  rw [off, off, List.getD_eq_getElem _ _ hil, List.getD_eq_getElem _ _ hjl]
  exact h2

lemma WF_off_le (h : D.WF) {i j : Nat} (hij : i ≤ j) (hj : j ≤ D.n_queries) :
    D.off i ≤ D.off j := by
  rcases Nat.lt_or_ge i j with h1 | h1
  · exact le_of_lt (WF_off_lt h h1 hj)
  · have : i = j := le_antisymm hij h1
    exact this ▸ le_refl _

lemma WF_off_succ (h : D.WF) {q : Nat} (hq : q < D.n_queries) :
    D.off (q + 1) = D.off q + D.qsize q := by
  have := WF_off_lt h (show q < q + 1 by omega) hq
  unfold qsize
  omega

lemma WF_qsize_pos (h : D.WF) {q : Nat} (hq : q < D.n_queries) : 0 < D.qsize q := by
  have := WF_off_lt h (show q < q + 1 by omega) hq
  unfold qsize
  omega

lemma WF_off_le_n (h : D.WF) {q : Nat} (hq : q ≤ D.n_queries) :
    D.off q ≤ D.n_instances := by
  rw [← WF_offlast h]
  exact WF_off_le h hq le_rfl

lemma get_query_sizes_length : D.get_query_sizes.length = D.n_queries := by
  simp [get_query_sizes]

lemma get_query_sizes_getD {q : Nat} (hq : q < D.n_queries) :
    D.get_query_sizes.getD q 0 = D.qsize q := by
  rw [get_query_sizes, List.getD_eq_getElem _ _ (by simpa using hq)]
  simp

lemma WF_sum_sizes_take (h : D.WF) : ∀ {q : Nat}, q ≤ D.n_queries →
    (D.get_query_sizes.take q).sum = D.off q := by
  intro q
  induction q with
  | zero => intro _; simpa using (WF_off0 h).symm
  | succ q ih =>
    intro hq
    have hq1 : q < D.n_queries := by omega
    have hql : q < D.get_query_sizes.length := by rw [get_query_sizes_length]; omega
    rw [sum_take_succ_getD _ hql, ih (by omega), get_query_sizes_getD hq1]
    exact (WF_off_succ h hq1).symm

lemma WF_sizes_sum (h : D.WF) : D.get_query_sizes.sum = D.n_instances := by
  rw [← WF_offlast h, ← WF_sum_sizes_take h (le_refl D.n_queries),
    List.take_of_length_le (le_of_eq get_query_sizes_length)]

lemma WF_sizes_pos (h : D.WF) : ∀ s ∈ D.get_query_sizes, 0 < s := by
  intro s hs
  rw [get_query_sizes] at hs
  rcases List.mem_map.1 hs with ⟨q, hq, rfl⟩
  exact WF_qsize_pos h (List.mem_range.1 hq)

lemma offsetsOf_length (ss : List Nat) : (offsetsOf ss).length = ss.length + 1 := by
  simp [offsetsOf]

lemma offsetsOf_getD (ss : List Nat) {c : Nat} (hc : c ≤ ss.length) :
    (offsetsOf ss).getD c 0 = (ss.take c).sum := by
  rw [offsetsOf, List.getD_eq_getElem _ _ (by simp; omega)]
  simp

lemma offsetsOf_pairwise (ss : List Nat) (hpos : ∀ s ∈ ss, 0 < s) :
    (offsetsOf ss).Pairwise (· < ·) := by
  rw [offsetsOf]
  refine List.pairwise_iff_get.2 ?_
  intro i j hij
  simp only [List.get_eq_getElem, List.getElem_map, List.getElem_range]
  have hj : (j : Nat) ≤ ss.length := by
    have := j.isLt
    simp only [List.length_map, List.length_range] at this
    omega
  exact sum_take_lt_sum_take ss hpos hij hj

lemma WF_offsetsOf_sizes (h : D.WF) :
    offsetsOf D.get_query_sizes = D.query_offsets := by
  refine List.ext_get ?_ ?_
  · rw [offsetsOf_length, get_query_sizes_length, WF_offlen h]
  · intro n h1 h2
    have hn : n ≤ D.n_queries := by
      rw [offsetsOf_length, get_query_sizes_length] at h1; omega
    have e1 : (offsetsOf D.get_query_sizes).get ⟨n, h1⟩ =
        (D.get_query_sizes.take n).sum := by
      rw [List.get_eq_getElem, ← List.getD_eq_getElem _ 0 h1, offsetsOf_getD]
      rw [get_query_sizes_length]; exact hn
    have e2 : D.query_offsets.get ⟨n, h2⟩ = D.off n := by
      rw [List.get_eq_getElem, ← List.getD_eq_getElem _ 0 h2]; rfl
    rw [e1, e2, WF_sum_sizes_take h hn]

lemma get_qids_dataset_length (h : D.WF) :
    D.get_qids_dataset.length = D.n_instances := by
  rw [get_qids_dataset, List.length_flatMap]
  simp only [Function.comp_def, List.length_replicate]
  exact WF_sizes_sum h

lemma WF_qids_dataset_getD (h : D.WF) {q k : Nat} (hq : q < D.n_queries)
    (hk : k < D.qsize q) :
    D.get_qids_dataset.getD (D.off q + k) 0 = D.query_ids.getD q 0 := by
  rw [get_qids_dataset]
  have hql : q < (List.range D.n_queries).length := by simpa using hq
  have hgd : (List.range D.n_queries).getD q 0 = q := by
    rw [List.getD_eq_getElem _ _ hql]; simp
  have hk2 : k < ((fun p => List.replicate (D.qsize p) (D.query_ids.getD p 0))
      ((List.range D.n_queries).getD q 0)).length := by
    rw [hgd]; simpa using hk
  have h3 := flatMap_getD (List.range D.n_queries)
    (fun p => List.replicate (D.qsize p) (D.query_ids.getD p 0)) 0 0 hql hk2
  rw [hgd] at h3
  have hpre : (((List.range D.n_queries).take q).map
      (fun x => (List.replicate (D.qsize x) (D.query_ids.getD x 0)).length)).sum =
      D.off q := by
    simp only [List.length_replicate]
    have h4 := WF_sum_sizes_take h (le_of_lt hq)
    rw [get_query_sizes, ← List.map_take] at h4
    exact h4
  rw [hpre] at h3
  rw [h3, getD_replicate _ _ hk]

end DatasetLemmas

end Lemmas

section SubsetFeaturesClaim

open Dataset

lemma subset_features_ok {D : Dataset} {idx : List Nat}
    (hidx : ∀ j ∈ idx, j < D.n_features) :
    D.subset_features idx =
      .ok ⟨D.X.map (fun row => idx.map (fun j => row.getD j 0)),
           D.y, D.query_ids, D.query_offsets⟩ := by
  rw [subset_features, if_pos]
  rw [List.all_eq_true]
  intro j hj
  exact decide_eq_true (hidx j hj)

/-- C7: for every dataset and every index sequence `idx` whose entries all
lie in `[0, n_features)`, `subset_features` succeeds with a dataset that
keeps `n_instances`, has `idx.length` features, whose column `j` is source
column `idx[j]` on every row, and whose labels, query ids and offsets are
exactly those of the source. -/
theorem subset_features_spec (D : Dataset) (idx : List Nat)
    (hidx : ∀ j ∈ idx, j < D.n_features) :
    ∃ S : Dataset, D.subset_features idx = .ok S ∧
      S.n_instances = D.n_instances ∧
      S.n_features = idx.length ∧
      (∀ i j, i < D.n_instances → j < idx.length →
        (S.X.getD i []).getD j 0 = (D.X.getD i []).getD (idx.getD j 0) 0) ∧
      S.y = D.y ∧ S.query_ids = D.query_ids ∧ S.query_offsets = D.query_offsets := by
  refine ⟨_, subset_features_ok hidx, ?_, ?_, ?_, rfl, rfl, rfl⟩
  · simp [n_instances]
  · show ((D.X.map (fun row => idx.map (fun j => row.getD j 0))).headD []).length = _
    cases hX : D.X with
    | nil =>
      cases hidx2 : idx with
      | nil => rfl
      | cons j t =>
        have := hidx j (by rw [hidx2]; simp)
        rw [n_features, hX] at this
        simp at this
    | cons r t => simp
  · intro i j hi hj
    rw [getD_map [] ([] : List ℚ) (by exact hi)]
    exact getD_map (0 : ℚ) 0 hj

/-- Witness for C7 at the concrete sample dataset with `idx = [1, 0]`. -/
theorem subset_features_spec_witness :
    (∀ j ∈ [1, 0], j < sampleD.n_features) ∧
      (∃ S : Dataset, sampleD.subset_features [1, 0] = .ok S ∧
        S.n_instances = sampleD.n_instances ∧
        S.n_features = 2 ∧
        (∀ i j, i < sampleD.n_instances → j < ([1, 0] : List Nat).length →
          (S.X.getD i []).getD j 0 =
            (sampleD.X.getD i []).getD (([1, 0] : List Nat).getD j 0) 0) ∧
        S.y = sampleD.y ∧ S.query_ids = sampleD.query_ids ∧
        S.query_offsets = sampleD.query_offsets) :=
  ⟨by decide, subset_features_spec sampleD [1, 0] (by decide)⟩

end SubsetFeaturesClaim

section IteratorClaim

open Dataset

/-- C8: the query iterator yields exactly `n_queries` triples, the q-th
being `(query_ids[q], query_offsets[q], query_offsets[q+1])`; consecutive
ranges abut (end of one is start of the next), each range is non-empty and
ascending, the first starts at `0` and the last ends at `n_instances`, so
the half-open ranges tile `[0, n_instances)`. -/
theorem query_iterator_tiles (D : Dataset) (h : D.WF) :
    D.query_iterator.length = D.n_queries ∧
    (∀ q, q < D.n_queries →
      D.query_iterator.getD q (0, 0, 0) =
        (D.query_ids.getD q 0, D.off q, D.off (q + 1)) ∧
      D.off q < D.off (q + 1)) ∧
    D.off 0 = 0 ∧
    D.off D.n_queries = D.n_instances ∧
    (∀ q, q + 1 < D.n_queries →
      (D.query_iterator.getD q (0, 0, 0)).2.2 =
        (D.query_iterator.getD (q + 1) (0, 0, 0)).2.1) := by
  have hlen : D.query_iterator.length = D.n_queries := by simp [query_iterator]
  have htriple : ∀ q, q < D.n_queries →
      D.query_iterator.getD q (0, 0, 0) =
        (D.query_ids.getD q 0, D.off q, D.off (q + 1)) := by
    intro q hq
    rw [query_iterator, getD_map _ 0 (by simpa using hq)]
    have : (List.range D.n_queries).getD q 0 = q := by
      rw [List.getD_eq_getElem _ _ (by simpa using hq)]; simp
    rw [this]
  refine ⟨hlen, ?_, WF_off0 h, WF_offlast h, ?_⟩
  · intro q hq
    exact ⟨htriple q hq, WF_off_lt h (by omega) hq⟩
  · intro q hq
    rw [htriple q (by omega), htriple (q + 1) hq]

/-- Witness for C8 at the concrete sample dataset. -/
theorem query_iterator_tiles_witness :
    sampleD.WF ∧ sampleD.query_iterator.length = sampleD.n_queries :=
  ⟨by decide, (query_iterator_tiles sampleD (by decide)).1⟩

end IteratorClaim

section DerivedClaim

open Dataset

/-- C9: `get_query_sizes` has length `n_queries`, entry `q` equal to
`query_offsets[q+1] - query_offsets[q]`, and sums to `n_instances`;
`get_qids_dataset` has length `n_instances` and, on every row
`query_offsets[q] + k` owned by query `q`, holds `query_ids[q]`. -/
theorem derived_utilities_spec (D : Dataset) (h : D.WF) :
    D.get_query_sizes.length = D.n_queries ∧
    (∀ q, q < D.n_queries →
      D.get_query_sizes.getD q 0 = D.off (q + 1) - D.off q) ∧
    D.get_query_sizes.sum = D.n_instances ∧
    D.get_qids_dataset.length = D.n_instances ∧
    (∀ q k, q < D.n_queries → k < D.qsize q →
      D.get_qids_dataset.getD (D.off q + k) 0 = D.query_ids.getD q 0) := by
  refine ⟨get_query_sizes_length, ?_, WF_sizes_sum h, get_qids_dataset_length h, ?_⟩
  · intro q hq
    rw [get_query_sizes_getD hq]
    rfl
  · intro q k hq hk
    exact WF_qids_dataset_getD h hq hk

/-- Witness for C9 at the concrete sample dataset. -/
theorem derived_utilities_spec_witness :
    sampleD.WF ∧ sampleD.get_query_sizes.sum = sampleD.n_instances :=
  ⟨by decide, (derived_utilities_spec sampleD (by decide)).2.2.1⟩

end DerivedClaim

section RatioClaim

open Dataset

lemma subset_error_eq {D : Dataset} {keep : List Nat} {e : DatasetError}
    (h : D.subset keep = .error e) : e = .unknownQueryError := by
  rw [subset] at h
  by_cases hc : keep.all (fun g => decide (g ∈ D.query_ids)) = true
  · rw [if_pos hc] at h; cases h
  · rw [if_neg hc] at h
    cases h
    rfl

lemma bind_ne_error {α β : Type _} {x : Except DatasetError α}
    {f : α → Except DatasetError β} {e : DatasetError}
    (hx : x ≠ .error e) (hf : ∀ a, f a ≠ .error e) : x.bind f ≠ .error e := by
  cases x with
  | error e1 =>
    intro h
    have h2 : (Except.error e1 : Except DatasetError β) = .error e := h
    have h3 : e1 = e := by injection h2
    exact hx (h3 ▸ rfl)
  | ok a => exact hf a

lemma map_ne_error {α β : Type _} {x : Except DatasetError α} {g : α → β}
    {e : DatasetError} (hx : x ≠ .error e) : x.map g ≠ .error e := by
  cases x with
  | error e1 =>
    intro h
    have h2 : (Except.error e1 : Except DatasetError β) = .error e := h
    have h3 : e1 = e := by injection h2
    exact hx (h3 ▸ rfl)
  | ok a => intro h; cases h

lemma subset_ne_ratio (D : Dataset) (keep : List Nat) :
    D.subset keep ≠ .error .invalidRatioError := by
  intro h
  cases subset_error_eq h

/-- C10: `split` fails with `InvalidRatioError` exactly when the fractions
are invalid (one of them outside `[0, 1]`, or their sum above `1`); the
validation is the first step of `split`, so on failure no partition dataset
is produced. -/
theorem split_invalid_ratio_iff (D : Dataset) (tf vf : ℚ) (perm : List Nat) :
    D.split tf vf perm = .error .invalidRatioError ↔
      ¬(0 ≤ tf ∧ tf ≤ 1 ∧ 0 ≤ vf ∧ vf ≤ 1 ∧ tf + vf ≤ 1) := by
  by_cases hv : 0 ≤ tf ∧ tf ≤ 1 ∧ 0 ≤ vf ∧ vf ≤ 1 ∧ tf + vf ≤ 1
  · simp only [split, if_pos hv]
    constructor
    · intro hE
      exact absurd hE (bind_ne_error (subset_ne_ratio _ _) (fun tr =>
        bind_ne_error (subset_ne_ratio _ _) (fun va =>
          map_ne_error (subset_ne_ratio _ _))))
    · intro hn
      exact absurd hv hn
  · simp only [split, if_neg hv]
    simp [hv]

end RatioClaim

section DumpClaim

open Dataset

lemma sparsePairsFrom_mem (row : List ℚ) : ∀ (k j : Nat) (v : ℚ),
    (j, v) ∈ sparsePairsFrom k row ↔
      ∃ t, t < row.length ∧ j = k + t ∧ row.getD t 0 = v ∧ v ≠ 0 := by
  induction row with
  | nil => intro k j v; simp [sparsePairsFrom]
  | cons w tail ih =>
    intro k j v
    by_cases hw : w = 0
    · rw [sparsePairsFrom, if_pos hw, ih (k + 1) j v]
      constructor
      · rintro ⟨t, ht, rfl, hval, hnz⟩
        exact ⟨t + 1, by simpa using ht, by omega, by simpa using hval, hnz⟩
      · rintro ⟨t, ht, rfl, hval, hnz⟩
        cases t with
        | zero =>
          exfalso
          rw [List.getD_cons_zero] at hval
          exact hnz (hval ▸ hw)
        | succ t =>
          refine ⟨t, by simpa using ht, by omega, ?_, hnz⟩
          simpa using hval
    · rw [sparsePairsFrom, if_neg hw]
      constructor
      · intro hmem
        rcases List.mem_cons.1 hmem with heq | hmem2
        · have hj : j = k ∧ v = w := by
            constructor
            · exact congrArg Prod.fst heq
            · exact congrArg Prod.snd heq
          refine ⟨0, by simp, by omega, ?_, ?_⟩
          · rw [List.getD_cons_zero, hj.2]
          · rw [hj.2]; exact hw
        · rcases (ih (k + 1) j v).1 hmem2 with ⟨t, ht, rfl, hval, hnz⟩
          exact ⟨t + 1, by simpa using ht, by omega, by simpa using hval, hnz⟩
      · rintro ⟨t, ht, rfl, hval, hnz⟩
        cases t with
        | zero =>
          rw [List.getD_cons_zero] at hval
          rw [Nat.add_zero, ← hval]
          exact List.mem_cons_self _ _
        | succ t =>
          refine List.mem_cons.2 (Or.inr ((ih (k + 1) _ v).2 ⟨t, by simpa using ht,
            by omega, by simpa using hval, hnz⟩))

lemma sparsePairsFrom_sorted (row : List ℚ) : ∀ k : Nat,
    ((sparsePairsFrom k row).map Prod.fst).Pairwise (· < ·) ∧
      ∀ j ∈ (sparsePairsFrom k row).map Prod.fst, k ≤ j := by
  induction row with
  | nil => intro k; simp [sparsePairsFrom]
  | cons w tail ih =>
    intro k
    by_cases hw : w = 0
    · rw [sparsePairsFrom, if_pos hw]
      exact ⟨(ih (k + 1)).1, fun j hj => le_trans (Nat.le_succ k) ((ih (k + 1)).2 j hj)⟩
    · rw [sparsePairsFrom, if_neg hw]
      rcases ih (k + 1) with ⟨hp, hb⟩
      constructor
      · rw [List.map_cons]
        exact List.Pairwise.cons
          (fun j hj => lt_of_lt_of_le (Nat.lt_succ_self k) (hb j hj)) hp
      · intro j hj
        rw [List.map_cons] at hj
        rcases List.mem_cons.1 hj with heq | hj2
        · rw [heq]
        · exact le_trans (Nat.le_succ k) (hb j hj2)

lemma dump_length (D : Dataset) : D.dump.length = D.n_instances := by
  simp [Dataset.dump]

lemma dump_getD (D : Dataset) {i : Nat} (hi : i < D.n_instances) :
    D.dump.getD i ⟨0, 0, []⟩ =
      ⟨D.y.getD i 0, D.get_qids_dataset.getD i 0, sparsePairs (D.X.getD i [])⟩ := by
  rw [Dataset.dump, getD_map _ 0 (by simpa using hi)]
  have h2 : (List.range D.n_instances).getD i 0 = i := by
    rw [List.getD_eq_getElem _ _ (by simpa using hi)]; simp
  rw [h2]

/-- C1: serialization writes, for each instance, a line whose pairs are
exactly the non-zero features of that row: a pair `(j, v)` is present iff
`j` is a 1-based feature index whose value `v` in the row is non-zero, and
the indices of the pairs are strictly ascending. -/
theorem dump_lines_sparse (D : Dataset) (h : D.WF) :
    D.dump.length = D.n_instances ∧
    ∀ i, i < D.n_instances →
      (∀ j v, ((j, v) ∈ (D.dump.getD i ⟨0, 0, []⟩).pairs ↔
        (1 ≤ j ∧ j ≤ D.n_features ∧ (D.X.getD i []).getD (j - 1) 0 = v ∧ v ≠ 0))) ∧
      ((D.dump.getD i ⟨0, 0, []⟩).pairs.map Prod.fst).Pairwise (· < ·) := by
  refine ⟨dump_length D, ?_⟩
  intro i hi
  rw [dump_getD D hi]
  have hrow : (D.X.getD i []).length = D.n_features :=
    WF_rowlen h _ (getD_mem [] hi)
  constructor
  · intro j v
    rw [show (Line.mk (D.y.getD i 0) (D.get_qids_dataset.getD i 0)
      (sparsePairs (D.X.getD i []))).pairs = sparsePairs (D.X.getD i []) from rfl]
    rw [sparsePairs, sparsePairsFrom_mem]
    constructor
    · rintro ⟨t, ht, rfl, hval, hnz⟩
      rw [hrow] at ht
      exact ⟨by omega, by omega, by simpa using hval, hnz⟩
    · rintro ⟨h1, h2, hval, hnz⟩
      exact ⟨j - 1, by omega, by omega, hval, hnz⟩
  · exact (sparsePairsFrom_sorted _ 1).1

/-- Witness for C1 at the concrete sample dataset. -/
theorem dump_lines_sparse_witness :
    sampleD.WF ∧ sampleD.dump.length = sampleD.n_instances :=
  ⟨by decide, (dump_lines_sparse sampleD (by decide)).1⟩

end DumpClaim

section SubsetClaim

open Dataset

variable {D : Dataset}

lemma subset_ok {keep : List Nat} (hk : ∀ g ∈ keep, g ∈ D.query_ids) :
    D.subset keep = .ok (D.subsetBuild keep) := by
  rw [subset, if_pos]
  rw [List.all_eq_true]
  intro g hg
  exact decide_eq_true (hk g hg)

lemma keptIdx_lt {keep : List Nat} : ∀ q ∈ D.keptIdx keep, q < D.n_queries := by
  intro q hq
  have := List.mem_filter.1 hq
  exact List.mem_range.1 this.1

lemma keptIdx_getD_lt {keep : List Nat} {c : Nat} (hc : c < (D.keptIdx keep).length) :
    (D.keptIdx keep).getD c 0 < D.n_queries :=
  keptIdx_lt _ (getD_mem 0 hc)

lemma filter_range_map_getD (l : List Nat) (p : Nat → Bool) :
    ((List.range l.length).filter (fun q => p (l.getD q 0))).map
      (fun q => l.getD q 0) = l.filter p := by
  conv_rhs => rw [← getD_map_range l 0]
  rw [List.filter_map]
  rfl

lemma subsetBuild_query_ids (keep : List Nat) :
    (D.subsetBuild keep).query_ids = D.query_ids.filter (fun g => decide (g ∈ keep)) := by
  show (D.keptIdx keep).map _ = _
  rw [keptIdx, n_queries, ← filter_range_map_getD D.query_ids (fun g => decide (g ∈ keep))]

lemma subsetBuild_n_queries (keep : List Nat) :
    (D.subsetBuild keep).n_queries = (D.keptIdx keep).length := by
  show ((D.keptIdx keep).map _).length = _
  simp

lemma subsetBuild_qid_getD {keep : List Nat} {c : Nat}
    (hc : c < (D.keptIdx keep).length) :
    (D.subsetBuild keep).query_ids.getD c 0 =
      D.query_ids.getD ((D.keptIdx keep).getD c 0) 0 := by
  show ((D.keptIdx keep).map _).getD c 0 = _
  rw [getD_map _ 0 hc]

lemma subsetBuild_off {keep : List Nat} {c : Nat}
    (hc : c ≤ (D.keptIdx keep).length) :
    (D.subsetBuild keep).off c = (((D.keptIdx keep).take c).map (fun q => D.qsize q)).sum := by
  show (offsetsOf ((D.keptIdx keep).map (fun q => D.qsize q))).getD c 0 = _
  rw [offsetsOf_getD _ (by simpa using hc), List.map_take]

lemma subsetBuild_off_succ {keep : List Nat} {c : Nat}
    (hc : c < (D.keptIdx keep).length) :
    (D.subsetBuild keep).off (c + 1) =
      (D.subsetBuild keep).off c + D.qsize ((D.keptIdx keep).getD c 0) := by
  have hc1 : c + 1 ≤ (D.keptIdx keep).length := hc
  rw [subsetBuild_off hc1, subsetBuild_off (le_of_lt hc),
    List.map_take, List.map_take]
  have hcl : c < ((D.keptIdx keep).map (fun q => D.qsize q)).length := by simpa using hc
  rw [sum_take_succ_getD _ hcl, getD_map _ 0 hc]

lemma sliceLen (h : D.WF) {l : List α} (hl : D.n_instances ≤ l.length) {q : Nat}
    (hq : q < D.n_queries) :
    ((l.drop (D.off q)).take (D.qsize q)).length = D.qsize q := by
  rw [List.length_take, List.length_drop]
  have h1 : D.off q + D.qsize q ≤ D.n_instances := by
    rw [← WF_off_succ h hq]
    exact WF_off_le_n h hq
  omega

lemma subsetBuild_slice_getD (h : D.WF) (l : List α) (d : α)
    (hl : D.n_instances ≤ l.length) {keep : List Nat} {c k : Nat}
    (hc : c < (D.keptIdx keep).length)
    (hk : k < D.qsize ((D.keptIdx keep).getD c 0)) :
    ((D.keptIdx keep).flatMap (fun q => (l.drop (D.off q)).take (D.qsize q))).getD
        ((((D.keptIdx keep).take c).map (fun q => D.qsize q)).sum + k) d =
      l.getD (D.off ((D.keptIdx keep).getD c 0) + k) d := by
  have hq : (D.keptIdx keep).getD c 0 < D.n_queries := keptIdx_getD_lt hc
  have hk2 : k < ((fun q => (l.drop (D.off q)).take (D.qsize q))
      ((D.keptIdx keep).getD c 0)).length := by
    rw [sliceLen h hl hq]
    exact hk
  have h3 := flatMap_getD (D.keptIdx keep)
    (fun q => (l.drop (D.off q)).take (D.qsize q)) 0 d hc hk2
  have hpre : (((D.keptIdx keep).take c).map
      (fun x => ((l.drop (D.off x)).take (D.qsize x)).length)).sum =
      (((D.keptIdx keep).take c).map (fun q => D.qsize q)).sum := by
    refine congrArg _ (List.map_congr_left ?_)
    intro a ha
    exact sliceLen h hl (keptIdx_lt a (List.take_subset _ _ ha))
  rw [hpre] at h3
  rw [h3]
  show ((l.drop (D.off ((D.keptIdx keep).getD c 0))).take
      (D.qsize ((D.keptIdx keep).getD c 0))).getD k d = _
  rw [getD_take _ d hk, getD_drop]

/-- C6: for every dataset and every request `keep` of query ids all present
in the source, `subset` succeeds; the kept query ids are the stable filter
of the source ids (same relative order); the c-th kept query, sitting at
source position `keptIdx[c]`, occupies exactly the contiguous result rows
from `off c` to `off c + qsize` and each of those rows carries the feature
vector and label of the corresponding source row. -/
theorem subset_stable_contiguous (D : Dataset) (keep : List Nat) (h : D.WF)
    (hk : ∀ g ∈ keep, g ∈ D.query_ids) :
    ∃ S : Dataset, D.subset keep = .ok S ∧
      S.query_ids = D.query_ids.filter (fun g => decide (g ∈ keep)) ∧
      S.n_queries = (D.keptIdx keep).length ∧
      ∀ c, c < S.n_queries →
        S.query_ids.getD c 0 = D.query_ids.getD ((D.keptIdx keep).getD c 0) 0 ∧
        S.off (c + 1) = S.off c + D.qsize ((D.keptIdx keep).getD c 0) ∧
        ∀ k, k < D.qsize ((D.keptIdx keep).getD c 0) →
          S.X.getD (S.off c + k) [] =
            D.X.getD (D.off ((D.keptIdx keep).getD c 0) + k) [] ∧
          S.y.getD (S.off c + k) 0 =
            D.y.getD (D.off ((D.keptIdx keep).getD c 0) + k) 0 := by
  refine ⟨D.subsetBuild keep, subset_ok hk, subsetBuild_query_ids keep,
    subsetBuild_n_queries keep, ?_⟩
  intro c hc
  rw [subsetBuild_n_queries keep] at hc
  refine ⟨subsetBuild_qid_getD hc, subsetBuild_off_succ hc, ?_⟩
  intro k hkk
  constructor
  · rw [subsetBuild_off (le_of_lt hc)]
    exact subsetBuild_slice_getD h D.X [] (le_refl _) hc hkk
  · rw [subsetBuild_off (le_of_lt hc)]
    exact subsetBuild_slice_getD h D.y 0 (le_of_eq (WF_ylen h).symm) hc hkk

/-- Witness for C6 at the concrete sample dataset, keeping only query 2. -/
theorem subset_stable_contiguous_witness :
    sampleD.WF ∧ (∀ g ∈ [2], g ∈ sampleD.query_ids) ∧
      (∃ S : Dataset, sampleD.subset [2] = .ok S ∧
        S.query_ids = sampleD.query_ids.filter (fun g => decide (g ∈ [2])) ∧
        S.n_queries = (sampleD.keptIdx [2]).length ∧
        ∀ c, c < S.n_queries →
          S.query_ids.getD c 0 = sampleD.query_ids.getD ((sampleD.keptIdx [2]).getD c 0) 0 ∧
          S.off (c + 1) = S.off c + sampleD.qsize ((sampleD.keptIdx [2]).getD c 0) ∧
          ∀ k, k < sampleD.qsize ((sampleD.keptIdx [2]).getD c 0) →
            S.X.getD (S.off c + k) [] =
              sampleD.X.getD (sampleD.off ((sampleD.keptIdx [2]).getD c 0) + k) [] ∧
            S.y.getD (S.off c + k) 0 =
              sampleD.y.getD (sampleD.off ((sampleD.keptIdx [2]).getD c 0) + k) 0) :=
  ⟨by decide, by decide, subset_stable_contiguous sampleD [2] (by decide) (by decide)⟩

end SubsetClaim

section OffsetClaim

open Dataset

variable {D : Dataset}

lemma length_dropWhile_le (p : α → Bool) (l : List α) :
    (l.dropWhile p).length ≤ l.length := by
  induction l with
  | nil => simp
  | cons a t ih =>
    by_cases h : p a = true
    · rw [List.dropWhile_cons_of_pos h]
      exact le_trans ih (Nat.le_succ _)
    · rw [List.dropWhile_cons_of_neg h]

lemma groupLinesAux_flat : ∀ (fuel : Nat) (ls : List Line), ls.length ≤ fuel →
    (groupLinesAux fuel ls).flatMap (fun g => g.2) = ls := by
  intro fuel
  induction fuel with
  | zero =>
    intro ls h
    have : ls = [] := List.length_eq_zero.1 (Nat.le_zero.1 h)
    rw [this]
    rfl
  | succ fuel ih =>
    intro ls h
    cases ls with
    | nil => rfl
    | cons l t =>
      rw [groupLinesAux, List.flatMap_cons,
        ih _ (le_trans (length_dropWhile_le _ t) (by simpa using h))]
      simp [List.takeWhile_append_dropWhile]

lemma groupLinesAux_nonempty : ∀ (fuel : Nat) (ls : List Line),
    ∀ g ∈ groupLinesAux fuel ls, 0 < g.2.length := by
  intro fuel
  induction fuel with
  | zero => intro ls g hg; cases hg
  | succ fuel ih =>
    intro ls g hg
    cases ls with
    | nil => cases hg
    | cons l t =>
      rw [groupLinesAux] at hg
      rcases List.mem_cons.1 hg with heq | hg2
      · rw [heq]; simp
      · exact ih _ g hg2

lemma groupLines_sizes_sum (ls : List Line) :
    ((groupLines ls).map (fun g => g.2.length)).sum = ls.length := by
  have h1 := groupLinesAux_flat ls.length ls (le_refl _)
  have h2 := congrArg List.length h1
  rw [List.length_flatMap] at h2
  rw [← h2]
  refine congrArg _ (List.map_congr_left ?_)
  intro a _
  rfl

lemma load_eq_ok {ls : List Line} {S : Dataset} (h : load ls = .ok S) :
    S = ⟨ls.map (fun l => denseRow (maxFeatureIndex ls) l.pairs),
         ls.map (fun l => l.label),
         (groupLines ls).map Prod.fst,
         offsetsOf ((groupLines ls).map (fun g => g.2.length))⟩ := by
  rw [load] at h
  by_cases hc : ((groupLines ls).map Prod.fst).Nodup
  · rw [if_pos hc] at h
    injection h with h2
    exact h2.symm
  · rw [if_neg hc] at h
    cases h

lemma subset_eq_ok {keep : List Nat} {S : Dataset} (h : D.subset keep = .ok S) :
    S = D.subsetBuild keep ∧ ∀ g ∈ keep, g ∈ D.query_ids := by
  rw [subset] at h
  by_cases hc : keep.all (fun g => decide (g ∈ D.query_ids)) = true
  · rw [if_pos hc] at h
    injection h with h2
    refine ⟨h2.symm, ?_⟩
    intro g hg
    exact of_decide_eq_true (List.all_eq_true.1 hc g hg)
  · rw [if_neg hc] at h
    cases h

lemma subset_features_eq_ok {idx : List Nat} {S : Dataset}
    (h : D.subset_features idx = .ok S) :
    S = ⟨D.X.map (fun row => idx.map (fun j => row.getD j 0)),
         D.y, D.query_ids, D.query_offsets⟩ := by
  rw [subset_features] at h
  by_cases hc : idx.all (fun j => decide (j < D.n_features)) = true
  · rw [if_pos hc] at h
    injection h with h2
    exact h2.symm
  · rw [if_neg hc] at h
    cases h

lemma bind_eq_ok {α β : Type _} {x : Except DatasetError α}
    {f : α → Except DatasetError β} {v : β} (h : x.bind f = .ok v) :
    ∃ a, x = .ok a ∧ f a = .ok v := by
  cases x with
  | error e =>
    exfalso
    have h2 : (Except.error e : Except DatasetError β) = .ok v := h
    cases h2
  | ok a => exact ⟨a, rfl, h⟩

lemma map_eq_ok {α β : Type _} {x : Except DatasetError α} {g : α → β} {v : β}
    (h : x.map g = .ok v) : ∃ a, x = .ok a ∧ g a = v := by
  cases x with
  | error e =>
    exfalso
    have h2 : (Except.error e : Except DatasetError β) = .ok v := h
    cases h2
  | ok a =>
    refine ⟨a, rfl, ?_⟩
    have h2 : (Except.ok (g a) : Except DatasetError β) = .ok v := h
    injection h2

lemma qsize_pos_of_inv {S : Dataset} (hlen : S.query_offsets.length = S.n_queries + 1)
    (hp : S.query_offsets.Pairwise (· < ·)) {q : Nat} (hq : q < S.n_queries) :
    0 < S.qsize q := by
  have hql : q < S.query_offsets.length := by omega
  have hq1l : q + 1 < S.query_offsets.length := by omega
  have h2 := List.pairwise_iff_get.1 hp ⟨q, hql⟩ ⟨q + 1, hq1l⟩ (Nat.lt_succ_self q)
  unfold Dataset.qsize Dataset.off
  rw [List.getD_eq_getElem _ _ hql, List.getD_eq_getElem _ _ hq1l]
  simp only [List.get_eq_getElem] at h2
  omega

lemma subsetBuild_n_instances (h : D.WF) (keep : List Nat) :
    (D.subsetBuild keep).n_instances =
      (((D.keptIdx keep)).map (fun q => D.qsize q)).sum := by
  show ((D.keptIdx keep).flatMap _).length = _
  rw [List.length_flatMap]
  refine congrArg _ (List.map_congr_left ?_)
  intro a ha
  exact sliceLen h (le_refl _) (keptIdx_lt a ha)

lemma subsetBuild_OffsetInvariant (h : D.WF) (keep : List Nat) :
    (D.subsetBuild keep).OffsetInvariant := by
  have hnq : (D.subsetBuild keep).n_queries = (D.keptIdx keep).length :=
    subsetBuild_n_queries keep
  have hlen : (D.subsetBuild keep).query_offsets.length =
      (D.subsetBuild keep).n_queries + 1 := by
    show (offsetsOf ((D.keptIdx keep).map (fun q => D.qsize q))).length = _
    rw [offsetsOf_length, hnq, List.length_map]
  have hp : (D.subsetBuild keep).query_offsets.Pairwise (· < ·) := by
    show (offsetsOf ((D.keptIdx keep).map (fun q => D.qsize q))).Pairwise (· < ·)
    refine offsetsOf_pairwise _ ?_
    intro s hs
    rcases List.mem_map.1 hs with ⟨q, hq, rfl⟩
    exact WF_qsize_pos h (keptIdx_lt q hq)
  refine ⟨hlen, ?_, ?_, hp, fun q hq => qsize_pos_of_inv hlen hp hq⟩
  · have h0 : (D.subsetBuild keep).off 0 =
        (((D.keptIdx keep).take 0).map (fun q => D.qsize q)).sum :=
      subsetBuild_off (Nat.zero_le _)
    rw [h0]
    simp
  · rw [hnq, subsetBuild_off (le_refl _), List.take_of_length_le (le_refl _),
      subsetBuild_n_instances h keep]

lemma load_OffsetInvariant {ls : List Line} {S : Dataset} (hok : load ls = .ok S) :
    S.OffsetInvariant := by
  obtain rfl := load_eq_ok hok
  have hglen : ((groupLines ls).map (fun g => g.2.length)).length =
      ((groupLines ls).map Prod.fst).length := by simp
  have hlen : (offsetsOf ((groupLines ls).map (fun g => g.2.length))).length =
      ((groupLines ls).map Prod.fst).length + 1 := by
    rw [offsetsOf_length, hglen]
  have hp : (offsetsOf ((groupLines ls).map (fun g => g.2.length))).Pairwise (· < ·) := by
    refine offsetsOf_pairwise _ ?_
    intro s hs
    rcases List.mem_map.1 hs with ⟨g, hg, rfl⟩
    exact groupLinesAux_nonempty _ _ g hg
  refine ⟨hlen, ?_, ?_, hp, ?_⟩
  · show (offsetsOf _).getD 0 0 = 0
    rw [offsetsOf_getD _ (Nat.zero_le _)]
    simp
  · show (offsetsOf ((groupLines ls).map (fun g => g.2.length))).getD
        ((groupLines ls).map Prod.fst).length 0 =
        (ls.map (fun l => denseRow (maxFeatureIndex ls) l.pairs)).length
    have hle : ((groupLines ls).map Prod.fst).length ≤
        ((groupLines ls).map (fun g => g.2.length)).length := le_of_eq hglen.symm
    rw [offsetsOf_getD _ hle, List.take_of_length_le (le_of_eq hglen),
      groupLines_sizes_sum, List.length_map]
  · intro q hq
    exact qsize_pos_of_inv hlen hp hq

lemma subset_features_OffsetInvariant {idx : List Nat} {S : Dataset} (h : D.WF)
    (hok : D.subset_features idx = .ok S) : S.OffsetInvariant := by
  obtain rfl := subset_features_eq_ok hok
  have hlen : D.query_offsets.length =
      (⟨D.X.map (fun row => idx.map (fun j => row.getD j 0)),
        D.y, D.query_ids, D.query_offsets⟩ : Dataset).n_queries + 1 := WF_offlen h
  refine ⟨hlen, ?_, ?_, ?_, ?_⟩
  · have h0 : D.off 0 = 0 := WF_off0 h
    exact h0
  · show D.off D.n_queries = (D.X.map (fun row => idx.map (fun j => row.getD j 0))).length
    rw [List.length_map]
    exact WF_offlast h
  · have h0 : D.query_offsets.Pairwise (· < ·) := WF_pairwise h
    exact h0
  · intro q hq
    exact qsize_pos_of_inv hlen (WF_pairwise h) hq

lemma split_eq_ok {tf vf : ℚ} {perm : List Nat} {tr va te : Dataset}
    (h : D.split tf vf perm = .ok (tr, va, te)) :
    tr = D.subsetBuild (perm.take (round (tf * D.n_queries)).toNat) ∧
    va = D.subsetBuild ((perm.drop (round (tf * D.n_queries)).toNat).take
      (round (vf * D.n_queries)).toNat) ∧
    te = D.subsetBuild (perm.drop ((round (tf * D.n_queries)).toNat +
      (round (vf * D.n_queries)).toNat)) := by
  by_cases hv : 0 ≤ tf ∧ tf ≤ 1 ∧ 0 ≤ vf ∧ vf ≤ 1 ∧ tf + vf ≤ 1
  · simp only [split, if_pos hv] at h
    obtain ⟨a, ha, h2⟩ := bind_eq_ok h
    obtain ⟨b, hb, h3⟩ := bind_eq_ok h2
    obtain ⟨c0, hc0, h4⟩ := map_eq_ok h3
    have hat : a = tr := congrArg (fun p => p.1) h4
    have hbv : b = va := congrArg (fun p => p.2.1) h4
    have hct : c0 = te := congrArg (fun p => p.2.2) h4
    subst hat; subst hbv; subst hct
    exact ⟨(subset_eq_ok ha).1, (subset_eq_ok hb).1, (subset_eq_ok hc0).1⟩
  · simp only [split, if_neg hv] at h
    cases h

lemma split_OffsetInvariant {tf vf : ℚ} {perm : List Nat} {tr va te : Dataset}
    (h : D.WF) (hok : D.split tf vf perm = .ok (tr, va, te)) :
    tr.OffsetInvariant ∧ va.OffsetInvariant ∧ te.OffsetInvariant := by
  obtain ⟨h1, h2, h3⟩ := split_eq_ok hok
  subst h1; subst h2; subst h3
  exact ⟨subsetBuild_OffsetInvariant h _, subsetBuild_OffsetInvariant h _,
    subsetBuild_OffsetInvariant h _⟩

/-- C3: every dataset produced by a construction or transformation (`load`,
`subset_features`, `subset`, `split`) satisfies the offset invariant:
offsets have length `n_queries + 1`, start at `0`, end at `n_instances`,
and are strictly increasing, so every query has at least one instance. -/
theorem offset_invariant_all_ops :
    (∀ (ls : List Line) (S : Dataset), load ls = .ok S → S.OffsetInvariant) ∧
    (∀ (D : Dataset) (idx : List Nat) (S : Dataset), D.WF →
      D.subset_features idx = .ok S → S.OffsetInvariant) ∧
    (∀ (D : Dataset) (keep : List Nat) (S : Dataset), D.WF →
      D.subset keep = .ok S → S.OffsetInvariant) ∧
    (∀ (D : Dataset) (tf vf : ℚ) (perm : List Nat) (tr va te : Dataset), D.WF →
      D.split tf vf perm = .ok (tr, va, te) →
      tr.OffsetInvariant ∧ va.OffsetInvariant ∧ te.OffsetInvariant) := by
  refine ⟨?_, ?_, ?_, ?_⟩
  · intro ls S hok
    exact load_OffsetInvariant hok
  · intro D idx S h hok
    exact subset_features_OffsetInvariant h hok
  · intro D keep S h hok
    obtain ⟨rfl, -⟩ := subset_eq_ok hok
    exact subsetBuild_OffsetInvariant h keep
  · intro D tf vf perm tr va te h hok
    exact split_OffsetInvariant h hok

/-- Evaluation of `split` with both fractions zero: everything lands in the
test partition. -/
lemma split_zero_zero (D : Dataset) (perm : List Nat)
    (hp : ∀ g ∈ perm, g ∈ D.query_ids) :
    D.split 0 0 perm = .ok (D.subsetBuild [], D.subsetBuild [], D.subsetBuild perm) := by
  have hv : (0 : ℚ) ≤ 0 ∧ (0 : ℚ) ≤ 1 ∧ (0 : ℚ) ≤ 0 ∧ (0 : ℚ) ≤ 1 ∧
      (0 : ℚ) + 0 ≤ 1 := by norm_num
  simp only [split, if_pos hv]
  have e0 : (round ((0 : ℚ) * D.n_queries)).toNat = 0 := by
    rw [zero_mul, round_zero]
    rfl
  rw [e0]
  simp only [List.take_zero, List.drop_zero, Nat.add_zero]
  rw [subset_ok (fun g hg => absurd hg (List.not_mem_nil g)), subset_ok hp]
  rfl

/-- Witness for C3: the four operations applied to concrete inputs. -/
theorem offset_invariant_all_ops_witness :
    sampleLoaded.OffsetInvariant ∧
    sampleSubF.OffsetInvariant ∧
    (sampleD.subsetBuild [2]).OffsetInvariant ∧
    ((sampleD.subsetBuild []).OffsetInvariant ∧
      (sampleD.subsetBuild []).OffsetInvariant ∧
      (sampleD.subsetBuild samplePerm).OffsetInvariant) :=
  ⟨offset_invariant_all_ops.1 sampleLines sampleLoaded (by rfl),
   offset_invariant_all_ops.2.1 sampleD [1, 0] sampleSubF (by decide) (by rfl),
   offset_invariant_all_ops.2.2.1 sampleD [2] (sampleD.subsetBuild [2]) (by decide)
     (by rfl),
   offset_invariant_all_ops.2.2.2 sampleD 0 0 samplePerm _ _ _ (by decide)
     (split_zero_zero sampleD samplePerm (by decide))⟩

end OffsetClaim

section SplitClaim

open Dataset

variable {D : Dataset}

lemma flatMap_congr_left {f g : α → List β} {l : List α}
    (h : ∀ a ∈ l, f a = g a) : l.flatMap f = l.flatMap g := by
  rw [List.flatMap_def, List.flatMap_def, List.map_congr_left h]

lemma range_flatMap_getD (l : List α) (dfl : α) (f : α → List β) :
    (List.range l.length).flatMap (fun c => f (l.getD c dfl)) = l.flatMap f := by
  conv_rhs => rw [← getD_map_range l dfl]
  rw [List.flatMap_map]

lemma flatMap_filter (p : α → Bool) (f : α → List β) (l : List α) :
    (l.filter p).flatMap f = l.flatMap (fun a => if p a = true then f a else []) := by
  induction l with
  | nil => rfl
  | cons a t ih =>
    by_cases hp : p a = true
    · rw [List.filter_cons_of_pos hp, List.flatMap_cons, List.flatMap_cons, ih, if_pos hp]
    · rw [List.filter_cons_of_neg hp, List.flatMap_cons, ih, if_neg hp,
        List.nil_append]

lemma subsetBuild_qsize {keep : List Nat} {c : Nat}
    (hc : c < (D.keptIdx keep).length) :
    (D.subsetBuild keep).qsize c = D.qsize ((D.keptIdx keep).getD c 0) := by
  have h1 := subsetBuild_off_succ hc
  unfold Dataset.qsize at h1 ⊢
  omega

lemma subsetBuild_qids_expand (keep : List Nat) :
    (D.subsetBuild keep).get_qids_dataset =
      (D.keptIdx keep).flatMap
        (fun q => List.replicate (D.qsize q) (D.query_ids.getD q 0)) := by
  rw [get_qids_dataset, subsetBuild_n_queries keep]
  have hstep : (List.range (D.keptIdx keep).length).flatMap
      (fun c => (fun q => List.replicate (D.qsize q) (D.query_ids.getD q 0))
        ((D.keptIdx keep).getD c 0)) =
      (D.keptIdx keep).flatMap
        (fun q => List.replicate (D.qsize q) (D.query_ids.getD q 0)) :=
    range_flatMap_getD (D.keptIdx keep) 0
      (fun q => List.replicate (D.qsize q) (D.query_ids.getD q 0))
  rw [← hstep]
  refine flatMap_congr_left ?_
  intro c hc
  have hcl : c < (D.keptIdx keep).length := List.mem_range.1 hc
  rw [subsetBuild_qsize hcl, subsetBuild_qid_getD hcl]

lemma subsetBuild_qids_dataset (keep : List Nat) :
    (D.subsetBuild keep).get_qids_dataset =
      D.get_qids_dataset.filter (fun g => decide (g ∈ keep)) := by
  rw [subsetBuild_qids_expand keep, keptIdx, flatMap_filter,
    get_qids_dataset, List.filter_flatMap]
  refine flatMap_congr_left ?_
  intro q _
  rw [List.filter_replicate]

lemma subsetBuild_gq_length (h : D.WF) (keep : List Nat) :
    (D.subsetBuild keep).get_qids_dataset.length = (D.subsetBuild keep).n_instances := by
  rw [subsetBuild_qids_expand keep, List.length_flatMap,
    subsetBuild_n_instances h keep]
  refine congrArg _ (List.map_congr_left ?_)
  intro q _
  simp

lemma gq_mem : ∀ x ∈ D.get_qids_dataset, x ∈ D.query_ids := by
  intro x hx
  rw [get_qids_dataset] at hx
  rcases List.mem_flatMap.1 hx with ⟨q, hq, hrep⟩
  rw [List.eq_of_mem_replicate hrep]
  exact getD_mem 0 (List.mem_range.1 hq)

lemma filter3_perm : ∀ (l : List α) (p1 p2 p3 : α → Bool),
    (∀ x ∈ l, p1 x = true ∨ p2 x = true ∨ p3 x = true) →
    (∀ x ∈ l, p1 x = true → p2 x = false) →
    (∀ x ∈ l, p1 x = true → p3 x = false) →
    (∀ x ∈ l, p2 x = true → p3 x = false) →
    (l.filter p1 ++ l.filter p2 ++ l.filter p3).Perm l := by
  intro l
  induction l with
  | nil => intro p1 p2 p3 _ _ _ _; simp
  | cons a t ih =>
    intro p1 p2 p3 hcov h12 h13 h23
    have ih2 := ih p1 p2 p3
      (fun x hx => hcov x (List.mem_cons_of_mem a hx))
      (fun x hx => h12 x (List.mem_cons_of_mem a hx))
      (fun x hx => h13 x (List.mem_cons_of_mem a hx))
      (fun x hx => h23 x (List.mem_cons_of_mem a hx))
    by_cases hp1 : p1 a = true
    · have hp2 := h12 a (List.mem_cons_self a t) hp1
      have hp3 := h13 a (List.mem_cons_self a t) hp1
      rw [List.filter_cons_of_pos hp1, List.filter_cons_of_neg (by simp [hp2]),
        List.filter_cons_of_neg (by simp [hp3])]
      exact List.Perm.cons a ih2
    · by_cases hp2 : p2 a = true
      · have hp3 := h23 a (List.mem_cons_self a t) hp2
        rw [List.filter_cons_of_neg hp1, List.filter_cons_of_pos hp2,
          List.filter_cons_of_neg (by simp [hp3])]
        refine List.Perm.trans (List.Perm.append_right (t.filter p3) List.perm_middle) ?_
        exact List.Perm.cons a ih2
      · have hp3 : p3 a = true := by
          rcases hcov a (List.mem_cons_self a t) with h | h | h
          · exact absurd h hp1
          · exact absurd h hp2
          · exact h
        rw [List.filter_cons_of_neg hp1, List.filter_cons_of_neg hp2,
          List.filter_cons_of_pos hp3]
        exact List.Perm.trans List.perm_middle (List.Perm.cons a ih2)

lemma subsetBuild_partition (h : D.WF) (k1 k2 k3 : List Nat)
    (hperm : (k1 ++ (k2 ++ k3)).Perm D.query_ids) :
    ((D.subsetBuild k1).query_ids ++ (D.subsetBuild k2).query_ids ++
      (D.subsetBuild k3).query_ids).Perm D.query_ids ∧
    (D.subsetBuild k1).n_instances + (D.subsetBuild k2).n_instances +
      (D.subsetBuild k3).n_instances = D.n_instances ∧
    (∀ g ∈ (D.subsetBuild k1).query_ids,
      (D.subsetBuild k1).get_qids_dataset.count g = D.get_qids_dataset.count g) ∧
    (∀ g ∈ (D.subsetBuild k2).query_ids,
      (D.subsetBuild k2).get_qids_dataset.count g = D.get_qids_dataset.count g) ∧
    (∀ g ∈ (D.subsetBuild k3).query_ids,
      (D.subsetBuild k3).get_qids_dataset.count g = D.get_qids_dataset.count g) := by
  have hnd : (k1 ++ (k2 ++ k3)).Nodup := (WF_nodup h).perm hperm.symm
  have d1 : k1.Disjoint (k2 ++ k3) := List.disjoint_of_nodup_append hnd
  have hnd23 : (k2 ++ k3).Nodup := (List.nodup_append.1 hnd).2.1
  have d23 : k2.Disjoint k3 := List.disjoint_of_nodup_append hnd23
  have hcov : ∀ x ∈ D.query_ids, decide (x ∈ k1) = true ∨ decide (x ∈ k2) = true ∨
      decide (x ∈ k3) = true := by
    intro x hx
    have hx2 : x ∈ k1 ++ (k2 ++ k3) := hperm.mem_iff.2 hx
    rcases List.mem_append.1 hx2 with h1 | h1
    · exact Or.inl (decide_eq_true h1)
    · rcases List.mem_append.1 h1 with h2 | h2
      · exact Or.inr (Or.inl (decide_eq_true h2))
      · exact Or.inr (Or.inr (decide_eq_true h2))
  have h12 : ∀ x ∈ D.query_ids, decide (x ∈ k1) = true → decide (x ∈ k2) = false := by
    intro x _ hx1
    refine decide_eq_false ?_
    intro hx2
    exact d1 (of_decide_eq_true hx1) (List.mem_append.2 (Or.inl hx2))
  have h13 : ∀ x ∈ D.query_ids, decide (x ∈ k1) = true → decide (x ∈ k3) = false := by
    intro x _ hx1
    refine decide_eq_false ?_
    intro hx2
    exact d1 (of_decide_eq_true hx1) (List.mem_append.2 (Or.inr hx2))
  have h23 : ∀ x ∈ D.query_ids, decide (x ∈ k2) = true → decide (x ∈ k3) = false := by
    intro x _ hx1
    refine decide_eq_false ?_
    intro hx2
    exact d23 (of_decide_eq_true hx1) hx2
  refine ⟨?_, ?_, ?_, ?_, ?_⟩
  · rw [subsetBuild_query_ids, subsetBuild_query_ids, subsetBuild_query_ids]
    exact filter3_perm D.query_ids _ _ _ hcov h12 h13 h23
  · have hgcov : ∀ x ∈ D.get_qids_dataset, decide (x ∈ k1) = true ∨
        decide (x ∈ k2) = true ∨ decide (x ∈ k3) = true :=
      fun x hx => hcov x (gq_mem x hx)
    have hg12 := fun x hx => h12 x (gq_mem x hx)
    have hg13 := fun x hx => h13 x (gq_mem x hx)
    have hg23 := fun x hx => h23 x (gq_mem x hx)
    have hperm2 := filter3_perm D.get_qids_dataset _ _ _ hgcov hg12 hg13 hg23
    have hlen := hperm2.length_eq
    rw [List.length_append, List.length_append] at hlen
    rw [← subsetBuild_gq_length h k1, ← subsetBuild_gq_length h k2,
      ← subsetBuild_gq_length h k3, subsetBuild_qids_dataset k1,
      subsetBuild_qids_dataset k2, subsetBuild_qids_dataset k3, hlen,
      get_qids_dataset_length h]
  · intro g hg
    rw [subsetBuild_query_ids] at hg
    have hpg : (fun x => decide (x ∈ k1)) g = true := (List.mem_filter.1 hg).2
    rw [subsetBuild_qids_dataset k1]
    exact List.count_filter hpg
  · intro g hg
    rw [subsetBuild_query_ids] at hg
    have hpg : (fun x => decide (x ∈ k2)) g = true := (List.mem_filter.1 hg).2
    rw [subsetBuild_qids_dataset k2]
    exact List.count_filter hpg
  · intro g hg
    rw [subsetBuild_query_ids] at hg
    have hpg : (fun x => decide (x ∈ k3)) g = true := (List.mem_filter.1 hg).2
    rw [subsetBuild_qids_dataset k3]
    exact List.count_filter hpg

/-- C2: for every well-formed dataset, every shuffled query-id list that is
a permutation of the query ids, and every successful split, the three
partitions cover the query ids exactly once each (concatenation is a
permutation of the source ids, which are duplicate-free), their instance
counts sum to `n_instances`, and no query is divided: a query id kept by a
partition brings all its instances with it. -/
theorem split_partitions_queries (D : Dataset) (tf vf : ℚ) (perm : List Nat)
    (h : D.WF) (hperm : perm.Perm D.query_ids) {tr va te : Dataset}
    (hok : D.split tf vf perm = .ok (tr, va, te)) :
    (tr.query_ids ++ va.query_ids ++ te.query_ids).Perm D.query_ids ∧
    tr.n_instances + va.n_instances + te.n_instances = D.n_instances ∧
    (∀ g ∈ tr.query_ids, tr.get_qids_dataset.count g = D.get_qids_dataset.count g) ∧
    (∀ g ∈ va.query_ids, va.get_qids_dataset.count g = D.get_qids_dataset.count g) ∧
    (∀ g ∈ te.query_ids, te.get_qids_dataset.count g = D.get_qids_dataset.count g) := by
  obtain ⟨h1, h2, h3⟩ := split_eq_ok hok
  have hsplit : perm.take (round (tf * D.n_queries)).toNat ++
      ((perm.drop (round (tf * D.n_queries)).toNat).take (round (vf * D.n_queries)).toNat ++
        perm.drop ((round (tf * D.n_queries)).toNat + (round (vf * D.n_queries)).toNat)) =
      perm := by
    rw [← List.drop_drop, List.take_append_drop, List.take_append_drop]
  have hpermS := hperm
  rw [← hsplit] at hpermS
  have hmain := subsetBuild_partition h _ _ _ hpermS
  rw [← h1, ← h2, ← h3] at hmain
  exact hmain

/-- Witness for C2: a concrete split of the sample dataset (both fractions
zero, so the whole dataset lands in the test partition). -/
theorem split_partitions_queries_witness :
    sampleD.WF ∧ samplePerm.Perm sampleD.query_ids ∧
      ((sampleD.subsetBuild []).query_ids ++ (sampleD.subsetBuild []).query_ids ++
        (sampleD.subsetBuild samplePerm).query_ids).Perm sampleD.query_ids ∧
      (sampleD.subsetBuild []).n_instances + (sampleD.subsetBuild []).n_instances +
        (sampleD.subsetBuild samplePerm).n_instances = sampleD.n_instances := by
  have hmain := split_partitions_queries sampleD 0 0 samplePerm (by decide) (by decide)
    (split_zero_zero sampleD samplePerm (by decide))
  exact ⟨by decide, by decide, hmain.1, hmain.2.1⟩

end SplitClaim

section RoundTripClaim

open Dataset

variable {D : Dataset}

lemma lookup_sparsePairsFrom : ∀ (row : List ℚ) (k j : Nat),
    (∀ v ∈ row, v ≠ 0) → j < row.length →
    (sparsePairsFrom k row).lookup (k + j) = some (row.getD j 0) := by
  intro row
  induction row with
  | nil => intro k j _ hj; exact absurd hj (by simp)
  | cons v t ih =>
    intro k j hz hj
    have hv : v ≠ 0 := hz v (List.mem_cons_self v t)
    rw [sparsePairsFrom, if_neg hv]
    cases j with
    | zero =>
      rw [Nat.add_zero]
      simp [List.lookup]
    | succ j =>
      have hne : (k + (j + 1) == k) = false := by
        rw [beq_eq_false_iff_ne]
        omega
      simp only [List.lookup, hne]
      rw [show k + (j + 1) = (k + 1) + j from by omega]
      rw [ih (k + 1) j (fun w hw => hz w (List.mem_cons_of_mem v hw)) (by simpa using hj)]
      rfl

lemma denseRow_sparsePairs (row : List ℚ) (hz : ∀ v ∈ row, v ≠ 0) :
    denseRow row.length (sparsePairs row) = row := by
  rw [denseRow]
  have hcong : ∀ j ∈ List.range row.length,
      ((sparsePairs row).lookup (j + 1)).getD 0 = row.getD j 0 := by
    intro j hj
    have hj2 := List.mem_range.1 hj
    rw [sparsePairs, show j + 1 = 1 + j from by omega,
      lookup_sparsePairsFrom row 1 j hz hj2]
    rfl
  rw [List.map_congr_left hcong, getD_map_range]

lemma dump_maxFeatureIndex (h : D.WF) (hz : ∀ row ∈ D.X, ∀ v ∈ row, v ≠ 0) :
    maxFeatureIndex D.dump = D.n_features := by
  rcases Nat.eq_zero_or_pos D.n_instances with hn | hn
  · have hX : D.X = [] := List.length_eq_zero.1 hn
    have hdump : D.dump = [] := by
      rw [Dataset.dump, show D.n_instances = 0 from hn]
      rfl
    rw [hdump, n_features, hX]
    rfl
  · apply le_antisymm
    · rw [maxFeatureIndex]
      refine foldr_max_le ?_
      intro x hx
      rcases List.mem_flatMap.1 hx with ⟨line, hline, hxp⟩
      rw [Dataset.dump] at hline
      rcases List.mem_map.1 hline with ⟨i, hi, rfl⟩
      rcases List.mem_map.1 hxp with ⟨⟨j, v⟩, hjv, rfl⟩
      rcases (sparsePairsFrom_mem _ 1 j v).1 hjv with ⟨t, ht, rfl, -, -⟩
      have hrow : (D.X.getD i []).length = D.n_features :=
        WF_rowlen h _ (getD_mem [] (List.mem_range.1 hi))
      rw [hrow] at ht
      show 1 + t ≤ D.n_features
      omega
    · rcases Nat.eq_zero_or_pos D.n_features with hf | hf
      · rw [hf]
        exact Nat.zero_le _
      · rw [maxFeatureIndex]
        refine le_foldr_max ?_
        have hrow0 : (D.X.getD 0 []).length = D.n_features :=
          WF_rowlen h _ (getD_mem [] hn)
        refine List.mem_flatMap.2 ⟨⟨D.y.getD 0 0, D.get_qids_dataset.getD 0 0,
          sparsePairs (D.X.getD 0 [])⟩, ?_, ?_⟩
        · rw [Dataset.dump]
          exact List.mem_map.2 ⟨0, List.mem_range.2 hn, rfl⟩
        · have hvmem : (D.X.getD 0 []).getD (D.n_features - 1) 0 ∈ D.X.getD 0 [] := by
            refine getD_mem 0 ?_
            rw [hrow0]
            omega
          have hv : (D.X.getD 0 []).getD (D.n_features - 1) 0 ≠ 0 :=
            hz _ (getD_mem [] hn) _ hvmem
          refine List.mem_map.2
            ⟨(D.n_features, (D.X.getD 0 []).getD (D.n_features - 1) 0), ?_, rfl⟩
          refine (sparsePairsFrom_mem _ 1 _ _).2
            ⟨D.n_features - 1, ?_, by omega, rfl, hv⟩
          rw [hrow0]
          omega

lemma range_sum_map_blocks : ∀ (ss : List Nat) (f : Nat → α),
    (List.range ss.sum).map f =
      (List.range ss.length).flatMap
        (fun q => (List.range (ss.getD q 0)).map (fun k => f ((ss.take q).sum + k))) := by
  intro ss
  induction ss with
  | nil => intro f; rfl
  | cons s t ih =>
    intro f
    rw [List.sum_cons, List.range_add, List.map_append, List.map_map]
    rw [show (f ∘ fun x => s + x) = (fun i => f (s + i)) from rfl]
    rw [ih (fun i => f (s + i))]
    show _ = (List.range (t.length + 1)).flatMap _
    rw [List.range_succ_eq_map, List.flatMap_cons, List.flatMap_map]
    refine congrArg₂ _ ?_ ?_
    · refine List.map_congr_left ?_
      intro k _
      show f k = f ((List.take 0 (s :: t)).sum + k)
      rw [List.take_zero, List.sum_nil, Nat.zero_add]
    · refine flatMap_congr_left ?_
      intro q _
      show (List.range (t.getD q 0)).map (fun k => f (s + ((t.take q).sum + k))) =
        (List.range ((s :: t).getD (q + 1) 0)).map
          (fun k => f (((s :: t).take (q + 1)).sum + k))
      rw [List.getD_cons_succ, List.take_succ_cons, List.sum_cons]
      refine List.map_congr_left ?_
      intro k _
      exact congrArg f (Nat.add_assoc s _ k).symm

lemma WF_range_blocks (h : D.WF) (f : Nat → α) :
    (List.range D.n_instances).map f =
      (List.range D.n_queries).flatMap
        (fun q => (List.range (D.qsize q)).map (fun k => f (D.off q + k))) := by
  rw [← WF_sizes_sum h, range_sum_map_blocks D.get_query_sizes f,
    get_query_sizes_length]
  refine flatMap_congr_left ?_
  intro q hq
  have hq2 : q < D.n_queries := List.mem_range.1 hq
  rw [get_query_sizes_getD hq2, WF_sum_sizes_take h (le_of_lt hq2)]

lemma takeWhile_append_all {p : α → Bool} : ∀ (r rest : List α),
    (∀ x ∈ r, p x = true) → (∀ y, rest.head? = some y → p y = false) →
    (r ++ rest).takeWhile p = r ∧ (r ++ rest).dropWhile p = rest := by
  intro r
  induction r with
  | nil =>
    intro rest _ hrest
    cases rest with
    | nil => exact ⟨rfl, rfl⟩
    | cons y t =>
      have hy := hrest y rfl
      constructor
      · rw [List.nil_append, List.takeWhile_cons_of_neg (by simp [hy])]
      · rw [List.nil_append, List.dropWhile_cons_of_neg (by simp [hy])]
  | cons a r ih =>
    intro rest hr hrest
    have ha : p a = true := hr a (List.mem_cons_self a r)
    have ih2 := ih rest (fun x hx => hr x (List.mem_cons_of_mem a hx)) hrest
    constructor
    · rw [List.cons_append, List.takeWhile_cons_of_pos ha, ih2.1]
    · rw [List.cons_append, List.dropWhile_cons_of_pos ha, ih2.2]

lemma groupLinesAux_blocks : ∀ (bs : List (Nat × List Line)) (fuel : Nat),
    (∀ b ∈ bs, b.2 ≠ [] ∧ ∀ l ∈ b.2, l.qid = b.1) →
    List.Chain' (fun a b => a.1 ≠ b.1) bs →
    (bs.flatMap (fun b => b.2)).length ≤ fuel →
    groupLinesAux fuel (bs.flatMap (fun b => b.2)) = bs := by
  intro bs
  induction bs with
  | nil =>
    intro fuel _ _ _
    cases fuel <;> rfl
  | cons b bs ih =>
    intro fuel hb hchain hlen
    obtain ⟨q, ls⟩ := b
    obtain ⟨hne, hqid⟩ := hb (q, ls) (List.mem_cons_self _ _)
    cases hls : ls with
    | nil => exact absurd hls hne
    | cons l r =>
      subst hls
      rw [List.flatMap_cons, List.cons_append] at hlen ⊢
      cases fuel with
      | zero => simp at hlen
      | succ fuel =>
        rw [groupLinesAux]
        have hl : l.qid = q := hqid l (List.mem_cons_self _ _)
        have hr : ∀ x ∈ r, (x.qid == l.qid) = true := by
          intro x hx
          rw [hqid x (List.mem_cons_of_mem _ hx), hl]
          simp
        have hrest : ∀ y, (bs.flatMap (fun b => b.2)).head? = some y →
            (y.qid == l.qid) = false := by
          intro y hy
          cases bs with
          | nil => cases hy
          | cons b2 bs2 =>
            obtain ⟨q2, ls2⟩ := b2
            obtain ⟨hne2, hqid2⟩ := hb (q2, ls2)
              (List.mem_cons_of_mem _ (List.mem_cons_self _ _))
            cases hls2 : ls2 with
            | nil => exact absurd hls2 hne2
            | cons l2 r2 =>
              subst hls2
              rw [List.flatMap_cons, List.cons_append, List.head?_cons] at hy
              injection hy with hy2
              rw [← hy2, hqid2 l2 (List.mem_cons_self _ _), hl,
                beq_eq_false_iff_ne]
              have hneq := (List.chain'_cons.1 hchain).1
              exact fun hcon => hneq (by rw [hcon])
        have htw := takeWhile_append_all r (bs.flatMap (fun b => b.2)) hr hrest
        rw [htw.1, htw.2, hl,
          ih fuel (fun b2 hb2 => hb b2 (List.mem_cons_of_mem _ hb2)) hchain.tail
            (by simp at hlen ⊢; omega)]

lemma dump_blocks (h : D.WF) :
    D.dump = ((List.range D.n_queries).map (fun q => (D.query_ids.getD q 0,
      (List.range (D.qsize q)).map (fun k =>
        (⟨D.y.getD (D.off q + k) 0, D.get_qids_dataset.getD (D.off q + k) 0,
          sparsePairs (D.X.getD (D.off q + k) [])⟩ : Line))))).flatMap
      (fun b => b.2) := by
  rw [Dataset.dump, List.flatMap_map]
  have hmain := WF_range_blocks h (fun i =>
    (⟨D.y.getD i 0, D.get_qids_dataset.getD i 0, sparsePairs (D.X.getD i [])⟩ : Line))
  exact hmain

lemma groupLines_dump (h : D.WF) :
    groupLines D.dump = (List.range D.n_queries).map (fun q => (D.query_ids.getD q 0,
      (List.range (D.qsize q)).map (fun k =>
        (⟨D.y.getD (D.off q + k) 0, D.get_qids_dataset.getD (D.off q + k) 0,
          sparsePairs (D.X.getD (D.off q + k) [])⟩ : Line)))) := by
  rw [groupLines, dump_blocks h]
  refine groupLinesAux_blocks _ _ ?_ ?_ (le_refl _)
  · intro b hb
    rcases List.mem_map.1 hb with ⟨q, hq, rfl⟩
    have hq2 : q < D.n_queries := List.mem_range.1 hq
    constructor
    · have hpos : 0 < D.qsize q := WF_qsize_pos h hq2
      intro hcon
      have hlen := congrArg List.length hcon
      simp at hlen
      omega
    · intro l hl
      rcases List.mem_map.1 hl with ⟨k, hk, rfl⟩
      show D.get_qids_dataset.getD (D.off q + k) 0 = _
      exact WF_qids_dataset_getD h hq2 (List.mem_range.1 hk)
  · refine List.Pairwise.chain' ?_
    refine (List.pairwise_map).2 ?_
    have hnd := WF_nodup h
    rw [← getD_map_range D.query_ids 0] at hnd
    exact (List.pairwise_map).1 hnd

/-- C4: loading back a dump reproduces the dataset exactly when no feature
value is zero: `load (dump D) = ok D`, with the same feature matrix,
labels, query ids and query offsets. -/
theorem load_dump_roundtrip (D : Dataset) (h : D.WF)
    (hz : ∀ row ∈ D.X, ∀ v ∈ row, v ≠ 0) :
    load D.dump = .ok D := by
  have hqids : (groupLines D.dump).map Prod.fst = D.query_ids := by
    rw [groupLines_dump h, List.map_map]
    show (List.range D.n_queries).map (fun q => D.query_ids.getD q 0) = _
    exact getD_map_range D.query_ids 0
  have hsizes : (groupLines D.dump).map (fun g => g.2.length) = D.get_query_sizes := by
    rw [groupLines_dump h, List.map_map]
    rw [get_query_sizes]
    refine List.map_congr_left ?_
    intro q _
    simp
  have hX : D.dump.map (fun l => denseRow (maxFeatureIndex D.dump) l.pairs) = D.X := by
    rw [dump_maxFeatureIndex h hz, Dataset.dump, List.map_map]
    show (List.range D.n_instances).map
      (fun i => denseRow D.n_features (sparsePairs (D.X.getD i []))) = _
    have hcong : ∀ i ∈ List.range D.n_instances,
        denseRow D.n_features (sparsePairs (D.X.getD i [])) = D.X.getD i [] := by
      intro i hi
      have hrow : (D.X.getD i []).length = D.n_features :=
        WF_rowlen h _ (getD_mem [] (List.mem_range.1 hi))
      rw [← hrow]
      exact denseRow_sparsePairs _ (hz _ (getD_mem [] (List.mem_range.1 hi)))
    rw [List.map_congr_left hcong]
    exact getD_map_range D.X []
  have hy : D.dump.map (fun l => l.label) = D.y := by
    rw [Dataset.dump, List.map_map]
    show (List.range D.n_instances).map (fun i => D.y.getD i 0) = _
    rw [show D.n_instances = D.y.length from (WF_ylen h).symm]
    exact getD_map_range D.y 0
  rw [load, if_pos (by rw [hqids]; exact WF_nodup h), hX, hy, hqids, hsizes,
    WF_offsetsOf_sizes h]

/-- Witness for C4 at the concrete zero-free sample dataset. -/
theorem load_dump_roundtrip_witness :
    sampleD.WF ∧ (∀ row ∈ sampleD.X, ∀ v ∈ row, v ≠ 0) ∧
      load sampleD.dump = .ok sampleD :=
  ⟨by decide, by decide, load_dump_roundtrip sampleD (by decide) (by decide)⟩

end RoundTripClaim

end Rankeval
